import Mathlib

/-!
Verification of the utterance-preprocessing and text-scoring pipeline
(`src/nlp_tools/utterance_preprocessor.py`, `src/nlp_tools/text_scorer.py`,
`src/main.py`) against its natural-language specification.

The Python code is shallowly embedded: pandas DataFrames become lists of
records, timestamps become integers (seconds), regex passes become explicit
recursive functions on `List Char` following Python `re` leftmost,
non-overlapping substitution semantics, and the external capabilities
(the kss sentence segmenter, the sentiment classifier) become explicit
functional parameters.
-/

namespace NlpPipeline

/-! ## Character classes (Python `re` semantics, restricted to the
characters that occur in this pipeline's data: ASCII plus Hangul). -/

/-- Python `\s` (whitespace), ASCII part. -/
def isPySpace (c : Char) : Bool :=
  c = ' ' || c = '\t' || c = '\n' || c = '\r' || c = '\x0b' || c = '\x0c'

/-- Hangul syllable block 가-힣 (U+AC00 .. U+D7A3), the class used in the
repeated-character regex `[가-힣A-Za-z]`. -/
def isHangulSyl (c : Char) : Bool :=
  0xAC00 ≤ c.val && c.val ≤ 0xD7A3

/-- Hangul compatibility jamo (U+3130 .. U+318F); contains ㅋ and ㅎ.
Word characters for `\b`, but NOT in the `[가-힣A-Za-z]` class. -/
def isHangulJamo (c : Char) : Bool :=
  0x3130 ≤ c.val && c.val ≤ 0x318F

/-- Python `\w` (word character) restricted to ASCII alphanumerics,
underscore and Hangul. -/
def isWordChar (c : Char) : Bool :=
  c.isAlphanum || c = '_' || isHangulSyl c || isHangulJamo c

/-- Python `str.strip()`: drop leading and trailing whitespace. -/
def pyStrip (s : List Char) : List Char :=
  ((s.dropWhile isPySpace).reverse.dropWhile isPySpace).reverse

/-- Python `str.strip()` on `String`. -/
def pyStripS (s : String) : String := ⟨pyStrip s.data⟩

/-! ## Lexicon scorer (`KeywordBasedScorer`, text_scorer.py lines 50-98). -/

/-- Number of matches `re.findall(pat, s)` finds when `pat` has no regex
metacharacters: non-overlapping, leftmost-first substring occurrences.
(Python returns `len s + 1` matches for the empty pattern.) -/
def countOcc (pat : List Char) (s : List Char) : Nat :=
  if hp : pat = [] then s.length + 1
  else
    match s with
    | [] => 0
    | c :: rest =>
      if pat.isPrefixOf (c :: rest) then
        1 + countOcc pat ((c :: rest).drop pat.length)
      else
        countOcc pat rest
termination_by s.length
decreasing_by
  · simp only [List.length_drop, List.length_cons]
    have : pat.length ≠ 0 := fun h => hp (List.eq_nil_of_length_eq_zero h)
    omega
  · simp

/-- The hardcoded lexicon of `KeywordBasedScorer.__init__`, in Python dict
insertion order. Weights as exact rationals. -/
def lexicon : List (String × List (String × ℚ)) :=
  [ ("positive", [("고마워", 1.0), ("좋아", 0.8), ("행복", 1.0)]),
    ("negative", [("싫어", 1.0), ("우울", 1.2), ("짜증", 0.9)]),
    ("danger",   [("죽고 싶", 2.0), ("끝내고 싶", 2.0)]) ]

/-- Embeds `KeywordBasedScorer.keyword_count_score`: for each category, sum over
its (keyword, weight) pairs of (occurrence count) × weight; key is
`keyword_score_{category}`. -/
def keyword_count_score (text : String) : List (String × ℚ) :=
  lexicon.map fun (category, keywords) =>
    ("keyword_score_" ++ category,
      (keywords.map fun (word, weight) =>
        (countOcc word.data text.data : ℚ) * weight).sum)

/-! ## Sentiment classifier adapter (`SentimentScore`, text_scorer.py
lines 14-47). The external HuggingFace pipeline is opaque: it is modelled
as the list of its `{label, score}` outputs for the given batch. -/

/-- Python `str.lower()` restricted to ASCII case mapping. -/
def pyLower (s : String) : String := ⟨s.data.map Char.toLower⟩

structure ClassifierOutput where
  label : String
  score : ℚ
  deriving DecidableEq, Repr

structure SentimentResult where
  text : String
  sentiment_pos : ℚ
  sentiment_neg : ℚ
  deriving DecidableEq, Repr

/-- Embeds `SentimentScore.get_sentiment_scores`: zip the input texts with the
classifier outputs; if the dominant label (lowercased) is "positive" the
confidence is the positive score, otherwise the negative score; the other
side is 1 − confidence. -/
def get_sentiment_scores (outputs : List ClassifierOutput)
    (texts : List String) : List SentimentResult :=
  (texts.zip outputs).map fun (t, o) =>
    if pyLower o.label = "positive" then
      { text := t, sentiment_pos := o.score, sentiment_neg := 1 - o.score }
    else
      { text := t, sentiment_pos := 1 - o.score, sentiment_neg := o.score }

/-! ## Utterance windowing (`UtterancePreprocessor`,
utterance_preprocessor.py lines 6-70).

A raw DataFrame row has the three required columns (`doll_id`,
`uttered_at`, `text`) and possibly further columns (`extra`); every cell
may be missing. Timestamps are integers (seconds); `pd.Timedelta(minutes=5)`
is 300 seconds. -/

structure RawRow where
  doll_id : Option ℕ
  uttered_at : Option ℤ
  text : Option String
  extra : List (Option ℤ)
  deriving DecidableEq, Repr

structure CleanRow where
  doll_id : ℕ
  uttered_at : ℤ
  text : String
  deriving DecidableEq, Repr

structure WinRow where
  doll_id : ℕ
  uttered_at : ℤ
  text : String
  window_id : ℕ
  deriving DecidableEq, Repr

instance : Inhabited WinRow := ⟨⟨0, 0, "", 0⟩⟩

/-- Pandas `df.dropna()` keeps a row iff every cell, in every column,
is present. -/
def rowComplete (r : RawRow) : Bool :=
  r.doll_id.isSome && r.uttered_at.isSome && r.text.isSome &&
    r.extra.all Option.isSome

/-- Embeds `UtterancePreprocessor.remove_missing`: `self.df = self.df.dropna()`.
Rows that survive have all fields present, so they project to total
records. -/
def remove_missing (df : List RawRow) : List CleanRow :=
  (df.filter rowComplete).map fun r =>
    ⟨r.doll_id.getD 0, r.uttered_at.getD 0, r.text.getD ""⟩

/-- The sort key order of `sort_values(by=['doll_id', 'uttered_at'])`:
lexicographic on (doll_id, uttered_at). -/
def recLe (a b : CleanRow) : Prop :=
  a.doll_id < b.doll_id ∨ (a.doll_id = b.doll_id ∧ a.uttered_at ≤ b.uttered_at)

instance : DecidableRel recLe := fun a b => by unfold recLe; infer_instance

instance : IsTotal CleanRow recLe :=
  ⟨fun a b => by unfold recLe; omega⟩

instance : IsTrans CleanRow recLe :=
  ⟨fun a b c => by unfold recLe; omega⟩

/-- The (doll_id, uttered_at) sort key of a record. -/
def recKey (r : CleanRow) : ℕ × ℤ := (r.doll_id, r.uttered_at)

/-- Embeds `self.df.sort_values(by=['doll_id', 'uttered_at'])`: pandas sorts on
several columns with a stable lexicographic sort; any stable sort by the
same key computes the same permutation, here insertion sort. -/
def sort_values (df : List CleanRow) : List CleanRow :=
  List.insertionSort recLe df

/-- One step of
`groupby('doll_id')['uttered_at'].transform(λ x: x.diff().gt(5min).cumsum())`
on the sorted frame: carrying (doll_id, uttered_at, window_id) of the
previous row; a gap strictly over 300 seconds within the same doll_id
increments the id, a new doll_id restarts at 0 (its first diff is NaT,
and NaT > 5min is False). -/
def windowAux : Option (ℕ × ℤ × ℕ) → List CleanRow → List WinRow
  | _, [] => []
  | none, r :: rest =>
    ⟨r.doll_id, r.uttered_at, r.text, 0⟩ ::
      windowAux (some (r.doll_id, r.uttered_at, 0)) rest
  | some (d, t, w), r :: rest =>
    let w2 : ℕ :=
      if r.doll_id = d then (if r.uttered_at - t > 300 then w + 1 else w) else 0
    ⟨r.doll_id, r.uttered_at, r.text, w2⟩ ::
      windowAux (some (r.doll_id, r.uttered_at, w2)) rest

/-- Embeds `UtterancePreprocessor.generate_window_id`: sort by (doll_id,
uttered_at), then assign window ids from the 5-minute-gap rule. -/
def generate_window_id (df : List CleanRow) : List WinRow :=
  windowAux none (sort_values df)

/-- One joined conversation window (a row of `self.utterances`). -/
structure Utt where
  doll_id : ℕ
  window_id : ℕ
  texts : String
  deriving DecidableEq, Repr

/-- The (doll_id, window_id) group key. -/
def wKey (r : WinRow) : ℕ × ℕ := (r.doll_id, r.window_id)

/-- Group-key order used by pandas `groupby` (group keys come out sorted). -/
def pairLe (a b : ℕ × ℕ) : Prop :=
  a.1 < b.1 ∨ (a.1 = b.1 ∧ a.2 ≤ b.2)

instance : DecidableRel pairLe := fun a b => by unfold pairLe; infer_instance

instance : IsTotal (ℕ × ℕ) pairLe := ⟨fun a b => by unfold pairLe; omega⟩

instance : IsTrans (ℕ × ℕ) pairLe := ⟨fun a b c => by unfold pairLe; omega⟩

/-- Embeds `UtterancePreprocessor.join_texts_by_window`:
`groupby(['doll_id','window_id'])['text'].apply(' '.join)` — one output
row per distinct (doll_id, window_id) key, keys sorted, texts joined with
a single space in DataFrame row order. -/
def join_texts_by_window (df : List WinRow) : List Utt :=
  (List.insertionSort pairLe (df.map wKey).dedup).map fun k =>
    ⟨k.1, k.2,
      " ".intercalate ((df.filter fun r => decide (wKey r = k)).map WinRow.text)⟩

/-! ## Sentence segmentation (`kss_split_safe`, utterance_preprocessor.py
lines 72-81). The external kss segmenter is a functional parameter that
may fail (`Except`); a non-string input (e.g. NaN) is `none`. -/

/-- Embeds `re.split(r'(?<=[.!?])\s+', text)`: split at every maximal whitespace
run whose preceding character is `.`, `!` or `?`. `cur` holds the current
piece reversed (its head is the lookbehind character). -/
def fallbackSplitAux (cur : List Char) : List Char → List (List Char)
  | [] => [cur.reverse]
  | c :: rest =>
    if isPySpace c ∧ (cur.head? = some '.' ∨ cur.head? = some '!' ∨ cur.head? = some '?') then
      cur.reverse :: fallbackSplitAux [] (rest.dropWhile isPySpace)
    else
      fallbackSplitAux (c :: cur) rest
termination_by s => s.length
decreasing_by
  · have := (List.dropWhile_sublist (l := rest) isPySpace).length_le
    simp only [List.length_cons]
    omega
  · simp

/-- Embeds `UtterancePreprocessor.kss_split_safe`: `[]` for a non-string or
blank input; otherwise the kss result, or on any segmenter error the
regex fallback — each produced sentence stripped and empty results
discarded. -/
def kss_split_safe (split : String → Except String (List String))
    (text : Option String) : List String :=
  match text with
  | none => []
  | some t =>
    if pyStripS t = "" then []
    else
      match split t with
      | .ok sents => (sents.map pyStripS).filter fun s => decide (s ≠ "")
      | .error _ =>
        ((fallbackSplitAux [] t.data).map fun p => pyStripS ⟨p⟩).filter
          fun s => decide (s ≠ "")

/-- The window id the `diff/cumsum` step gives a row, from the carried
(doll_id, uttered_at, window_id) of the previous row. -/
def nextWid (st : Option (ℕ × ℤ × ℕ)) (r : CleanRow) : ℕ :=
  match st with
  | none => 0
  | some (d, t, w) =>
    if r.doll_id = d then (if r.uttered_at - t > 300 then w + 1 else w) else 0

/-- The invariant between two consecutive rows of the windowed frame. -/
def stepOk (a b : WinRow) : Prop :=
  b.window_id =
    if b.doll_id = a.doll_id then
      (if b.uttered_at - a.uttered_at > 300 then a.window_id + 1 else a.window_id)
    else 0

/-! ## Sentence cleaning (`step2_clean`, utterance_preprocessor.py lines
83-96): five regex passes, each a left-to-right non-overlapping
substitution. -/

/-- Case-insensitive literal prefix test (`kw` is lowercase). -/
def matchKw : List Char → List Char → Bool
  | [], _ => true
  | _ :: _, [] => false
  | k :: kw, c :: s => k = c.toLower && matchKw kw s

/-- After `[`, try to finish a match of
`(?:noise|inaudible).*?\]` (case-insensitive; `.` does not cross a
newline; lazy, so the first `]` closes): returns the suffix after the
closing bracket. -/
def noiseClose (rest : List Char) : Option (List Char) :=
  let kwlen : Option ℕ :=
    if matchKw "noise".data rest then some 5
    else if matchKw "inaudible".data rest then some 9
    else none
  match kwlen with
  | none => none
  | some n =>
    let rest2 := rest.drop n
    let pre := rest2.takeWhile fun c => c ≠ ']' && c ≠ '\n'
    match rest2.drop pre.length with
    | c :: tail => if c = ']' then some tail else none
    | [] => none

lemma noiseClose_length {rest tail : List Char}
    (h : noiseClose rest = some tail) : tail.length ≤ rest.length := by
  unfold noiseClose at h
  rcases hkw : (if matchKw "noise".data rest then some 5
    else if matchKw "inaudible".data rest then some 9 else none) with _ | n
  · rw [hkw] at h; simp at h
  · rw [hkw] at h
    simp only at h
    rcases hm : (rest.drop n).drop
        (((rest.drop n).takeWhile fun c => c ≠ ']' && c ≠ '\n').length) with _ | ⟨c, tl⟩
    · rw [hm] at h; simp at h
    · rw [hm] at h
      simp only at h
      by_cases hc : c = ']'
      · rw [if_pos hc] at h
        simp only [Option.some.injEq] at h
        subst h
        have h1 : tl.length + 1 = ((rest.drop n).drop
            (((rest.drop n).takeWhile fun c => c ≠ ']' && c ≠ '\n').length)).length := by
          rw [hm]; rfl
        have h2 := List.length_drop
          (((rest.drop n).takeWhile fun c => c ≠ ']' && c ≠ '\n').length) (rest.drop n)
        have h3 := List.length_drop n rest
        omega
      · rw [if_neg hc] at h
        simp at h

/-- Pass a: `re.sub(r'\[(?:noise|inaudible).*?\]|\(웃음\)', '', s, flags=re.I)`. -/
def noiseSub : List Char → List Char
  | [] => []
  | c :: rest =>
    if c = '[' then
      match hm : noiseClose rest with
      | some tail => noiseSub tail
      | none => c :: noiseSub rest
    else if c = '(' ∧ "웃음)".data.isPrefixOf rest then
      noiseSub (rest.drop 3)
    else c :: noiseSub rest
termination_by s => s.length
decreasing_by
  all_goals simp only [List.length_cons, List.length_drop]
  · have := noiseClose_length hm
    omega
  · omega
  · omega
  · omega

/-- Pass b: `re.sub(r'(ㅋㅋ+|ㅎㅎ+)', lambda m: m.group(1)[:2], s)` — a
maximal run of at least two ㅋ (or ㅎ) is replaced by exactly two. -/
def laughSub : List Char → List Char
  | [] => []
  | c :: rest =>
    if (c = 'ㅋ' ∨ c = 'ㅎ') ∧ 1 ≤ (rest.takeWhile (· = c)).length then
      c :: c :: laughSub (rest.drop (rest.takeWhile (· = c)).length)
    else c :: laughSub rest
termination_by s => s.length
decreasing_by
  · simp only [List.length_cons, List.length_drop]
    omega
  · simp

/-- Pass c: `re.sub(r'([가-힣A-Za-z])\1{2,}', r'\1', s)` — a maximal run
of at least three identical Hangul-syllable/ASCII letters collapses to
one. -/
def repeatSub : List Char → List Char
  | [] => []
  | c :: rest =>
    if (isHangulSyl c || c.isAlpha) ∧ 2 ≤ (rest.takeWhile (· = c)).length then
      c :: repeatSub (rest.drop (rest.takeWhile (· = c)).length)
    else c :: repeatSub rest
termination_by s => s.length
decreasing_by
  · simp only [List.length_cons, List.length_drop]
    omega
  · simp

/-- The filler alternatives of `_FILLERS`, in alternation order. -/
def fillers : List (List Char) :=
  ["음".data, "어".data, "그".data, "막".data, "약간".data, "그러니까".data,
   "뭐지".data, "진짜".data, "아니".data, "그러면".data]

/-- Regex `\b` to the right of a match: end of string or a non-word character. -/
def boundaryAfter (l : List Char) : Bool :=
  match l.head? with
  | none => true
  | some c => !(isWordChar c)

/-- Try the filler alternatives in order at the current position: the
first one that is a literal prefix AND is followed by a word boundary
wins (the regex engine backtracks through the alternation when the
trailing `\b` fails). Returns the matched filler and the suffix after it. -/
def tryFillers : List (List Char) → List Char → Option (List Char × List Char)
  | [], _ => none
  | f :: fs, s =>
    if f.isPrefixOf s ∧ ¬f.isEmpty then
      if boundaryAfter (s.drop f.length) then some (f, s.drop f.length)
      else tryFillers fs s
    else tryFillers fs s

lemma isPrefixOf_length_le {α : Type} [DecidableEq α] :
    ∀ (a b : List α), a.isPrefixOf b = true → a.length ≤ b.length := by
  intro a
  induction a with
  | nil => intro b _; simp
  | cons x xs ih =>
    intro b h
    cases b with
    | nil => simp [List.isPrefixOf] at h
    | cons y ys =>
      simp only [List.isPrefixOf, Bool.and_eq_true] at h
      simp only [List.length_cons]
      exact Nat.succ_le_succ (ih ys h.2)

lemma tryFillers_length {fs : List (List Char)} {s f after : List Char}
    (h : tryFillers fs s = some (f, after)) : after.length < s.length := by
  induction fs with
  | nil => simp [tryFillers] at h
  | cons g fs ih =>
    unfold tryFillers at h
    by_cases hp : g.isPrefixOf s ∧ ¬g.isEmpty
    · rw [if_pos hp] at h
      by_cases hb : boundaryAfter (s.drop g.length) = true
      · rw [if_pos hb] at h
        simp only [Option.some.injEq, Prod.mk.injEq] at h
        obtain ⟨rfl, rfl⟩ := h
        have hlen : g.length ≤ s.length := isPrefixOf_length_le g s hp.1
        have hne : g.length ≠ 0 := by
          intro h0
          exact hp.2 (by simpa [List.isEmpty_iff, List.length_eq_zero] using h0)
        have := List.length_drop g.length s
        omega
      · rw [if_neg hb] at h
        exact ih h
    · rw [if_neg hp] at h
      exact ih h

/-- Regex `\b` to the left of the current position: start of string or the
previous character (of the ORIGINAL string — substitution does not change
lookbehind) is a non-word character. -/
def boundaryBefore (prev : Option Char) : Bool :=
  match prev with
  | none => true
  | some c => !(isWordChar c)

/-- Pass d: `_FILLERS.sub('', s)` with
`_FILLERS = \b(음|어|그|막|약간|그러니까|뭐지|진짜|아니|그러면)\b`.
`prev` carries the character preceding the scan position. -/
def fillerSub (prev : Option Char) : List Char → List Char
  | [] => []
  | c :: rest =>
    if boundaryBefore prev then
      match hm : tryFillers fillers (c :: rest) with
      | some (f, after) => fillerSub (some (f.getLastD ' ')) after
      | none => c :: fillerSub (some c) rest
    else c :: fillerSub (some c) rest
termination_by s => s.length
decreasing_by
  · exact tryFillers_length hm
  · simp
  · simp

/-- Pass e, part 1: `re.sub(r'\s+', ' ', s)` — every maximal whitespace
run becomes a single space. -/
def collapseWs : List Char → List Char
  | [] => []
  | c :: rest =>
    if isPySpace c then ' ' :: collapseWs (rest.dropWhile isPySpace)
    else c :: collapseWs rest
termination_by s => s.length
decreasing_by
  · have := (List.dropWhile_sublist (l := rest) isPySpace).length_le
    simp only [List.length_cons]
    omega
  · simp

/-- Embeds `UtterancePreprocessor.step2_clean`: the five passes in source order. -/
def step2_clean (sentence : String) : String :=
  ⟨pyStrip (collapseWs (fillerSub none
    (repeatSub (laughSub (noiseSub sentence.data)))))⟩

/-! ## Sentence table (`split_sentences_keep_schema`,
utterance_preprocessor.py lines 98-125). -/

/-- A row of the exploded frame: `explode('sentences')` turns each
utterance into one row per sentence, or a single row with a missing
`sentence_text` (NaN) when the sentence list is empty;
`sentences_count = len(sentences)` is replicated onto each row. -/
structure ExRow where
  doll_id : ℕ
  window_id : ℕ
  sentences_count : ℕ
  sent : Option String
  deriving DecidableEq, Repr

/-- A row of the sentence-level table. -/
structure SentRow where
  doll_id : ℕ
  window_id : ℕ
  sentence_index : ℕ
  sentences_count : ℕ
  sentence_text : String
  deriving DecidableEq, Repr

def uKey (u : Utt) : ℕ × ℕ := (u.doll_id, u.window_id)

def eKey (r : ExRow) : ℕ × ℕ := (r.doll_id, r.window_id)

def sKey (r : SentRow) : ℕ × ℕ := (r.doll_id, r.window_id)

/-- The exploded rows of one utterance: one row per sentence, or a single
row with a missing sentence (NaN) when `kss_split_safe` returns `[]`;
`sentences_count = len(sentences)` replicated onto each row. -/
def blockOf (split : String → Except String (List String))
    (u : Utt) : List ExRow :=
  match kss_split_safe split (some u.texts) with
  | [] => [⟨u.doll_id, u.window_id, 0, none⟩]
  | sents => sents.map fun s => ⟨u.doll_id, u.window_id, sents.length, some s⟩

/-- Embeds `work['sentences'] = work[text_col].map(kss_split_safe)` followed by
`sentences_count = map(len)` and `explode('sentences')`. -/
def explodeRows (split : String → Except String (List String))
    (us : List Utt) : List ExRow :=
  us.flatMap (blockOf split)

/-- Embeds `groupby(id_cols).cumcount()`: pair each row with the number of
already-seen rows carrying the same (doll_id, window_id) key; `seen` is
the processed prefix. -/
def cumcountAux (seen : List ExRow) : List ExRow → List (ExRow × ℕ)
  | [] => []
  | r :: rest =>
    (r, (seen.filter fun x => decide (eKey x = eKey r)).length) ::
      cumcountAux (seen ++ [r]) rest

/-- Embeds `UtterancePreprocessor.split_sentences_keep_schema`: cap the joined
table to its first 30 rows, explode into sentences, assign per-group
cumulative counts as `sentence_index`, then `dropna(subset=['sentence_text'])`. -/
def split_sentences_keep_schema (split : String → Except String (List String))
    (utterances : List Utt) : List SentRow :=
  (cumcountAux [] (explodeRows split (utterances.take 30))).filterMap fun p =>
    p.1.sent.map fun s =>
      ⟨p.1.doll_id, p.1.window_id, p.2, p.1.sentences_count, s⟩

/-- The sentence rows one utterance contributes to the final table: its
nonempty sentences, indexed 0, 1, 2, … in emission order, each carrying
the sentence count of the whole window. -/
def sentBlock (split : String → Except String (List String))
    (u : Utt) : List SentRow :=
  (kss_split_safe split (some u.texts)).enum.map fun q =>
    ⟨u.doll_id, u.window_id, q.1,
      (kss_split_safe split (some u.texts)).length, q.2⟩

/-- Embeds `UtterancePreprocessor.preprocess_utterances`: drop missing rows,
assign window ids, join texts per window, split into indexed sentences,
and only then clean each sentence_text — indices and counts are computed
before cleaning. -/
def preprocess_utterances (split : String → Except String (List String))
    (df : List RawRow) : List SentRow :=
  (split_sentences_keep_schema split
    (join_texts_by_window (generate_window_id (remove_missing df)))).map
    fun r => { r with sentence_text := step2_clean r.sentence_text }

/-! ## Report assembler (`__main__`, main.py lines 6-47). Columns are
modelled by name; rows positionally (pd.concat(axis=1) after
reset_index aligns by position). -/

/-- Lexicographic (code-point) order on strings, as Python `sorted` uses. -/
def lexLeB : List Char → List Char → Bool
  | [], _ => true
  | _ :: _, [] => false
  | a :: as, b :: bs => if a = b then lexLeB as bs else decide (a < b)

def strLe (a b : String) : Prop := lexLeB a.data b.data = true

instance : DecidableRel strLe := fun a b => by unfold strLe; infer_instance

/-- Python `c.startswith("keyword_score_")`. -/
def startsWithKS (c : String) : Bool :=
  "keyword_score_".data.isPrefixOf c.data

/-- Columns of `pd.concat([df.drop(columns='text'), sentiment_results_df,
kewyword_scores], axis=1)`: the source columns minus `text` (original
relative order), then the sentiment frame's columns, then the keyword
Series' columns in dict insertion order. -/
def concat_columns (dfCols : List String) : List String :=
  (dfCols.erase "text") ++ ["text", "sentiment_pos", "sentiment_neg"] ++
    ["keyword_score_positive", "keyword_score_negative", "keyword_score_danger"]

/-- Embeds `cols_front`: every column that is neither sentiment side nor
keyword_score_*-prefixed, in concat order. -/
def cols_front (cols : List String) : List String :=
  cols.filter fun c =>
    decide (c ≠ "sentiment_pos") && decide (c ≠ "sentiment_neg") &&
      !(startsWithKS c)

/-- Embeds `cols_ordered = cols_front + [sentiment_pos, sentiment_neg] +
sorted(keyword_score_* columns)`. -/
def cols_ordered (dfCols : List String) : List String :=
  cols_front (concat_columns dfCols) ++ ["sentiment_pos", "sentiment_neg"] ++
    List.insertionSort strLe
      ((concat_columns dfCols).filter fun c => startsWithKS c)

/-- The merged rows: row i pairs the i-th metadata row with the i-th
sentiment result and the i-th keyword-score record (positional
alignment). -/
def report_rows {α : Type} (metaRows : List α) (texts : List String)
    (outputs : List ClassifierOutput) :
    List (α × SentimentResult × List (String × ℚ)) :=
  metaRows.zip ((get_sentiment_scores outputs texts).zip
    (texts.map keyword_count_score))

/-- Concrete frame for the C1 witness: speaker 1 utters at t = 0, 240,
600 (gaps of 4 and 6 minutes), speaker 2 at t = 0 and 300 (gap of exactly
5 minutes). -/
def exampleDf : List CleanRow :=
  [⟨1, 600, "c"⟩, ⟨1, 0, "a"⟩, ⟨1, 240, "b"⟩, ⟨2, 0, "d"⟩, ⟨2, 300, "e"⟩]

/-- Concrete frame for the C9 witness: two records of speaker 1 share the
timestamp 100, a third sits earlier at 50. -/
def tieDf : List CleanRow := [⟨1, 100, "x"⟩, ⟨1, 100, "y"⟩, ⟨1, 50, "w"⟩]

/-- A segmenter stub and a one-window frame for the C2 witness. -/
def okSplit : String → Except String (List String) :=
  fun _ => .ok ["a.", "b!", "c"]

def sampleWr : List WinRow := [⟨1, 5, "a. b! c", 0⟩]

/-! ## Windowing lemmas -/

lemma windowAux_cons (st : Option (ℕ × ℤ × ℕ)) (r : CleanRow) (rest : List CleanRow) :
    windowAux st (r :: rest) =
      ⟨r.doll_id, r.uttered_at, r.text, nextWid st r⟩ ::
        windowAux (some (r.doll_id, r.uttered_at, nextWid st r)) rest := by
  cases st with
  | none => rfl
  | some p => obtain ⟨d, t, w⟩ := p; rfl

lemma windowAux_nil (st : Option (ℕ × ℤ × ℕ)) : windowAux st [] = [] := by
  cases st with
  | none => rfl
  | some p => obtain ⟨d, t, w⟩ := p; rfl

lemma windowAux_none_head (l : List CleanRow)
    (h0 : 0 < (windowAux none l).length) :
    ((windowAux none l).get ⟨0, h0⟩).window_id = 0 := by
  cases l with
  | nil => exact absurd h0 (by simp [windowAux_nil])
  | cons r rest => rfl

lemma windowAux_chain (l : List CleanRow) :
    ∀ st, List.Chain' stepOk (windowAux st l) := by
  induction l with
  | nil => intro st; rw [windowAux_nil]; exact List.chain'_nil
  | cons r rest ih =>
    intro st
    rw [windowAux_cons]
    refine List.chain'_cons'.mpr ⟨?_, ih _⟩
    intro y hy
    cases rest with
    | nil => rw [windowAux_nil] at hy; simp at hy
    | cons r' rest' =>
      rw [windowAux_cons] at hy
      simp only [List.head?_cons, Option.mem_def, Option.some.injEq] at hy
      subst hy
      simp [stepOk, nextWid]

lemma windowAux_map_fields (l : List CleanRow) :
    ∀ st, (windowAux st l).map (fun r => (r.doll_id, r.uttered_at)) =
      l.map (fun r => (r.doll_id, r.uttered_at)) := by
  induction l with
  | nil => intro st; rw [windowAux_nil]; rfl
  | cons r rest ih =>
    intro st
    rw [windowAux_cons]
    simp only [List.map_cons, ih]

/-- Stability of a single ordered insertion: filtering the result on a
fixed sort key either appends the inserted record (when it has that key)
or leaves the filtration unchanged. -/
lemma filter_key_orderedInsert (x : CleanRow) (k : ℕ × ℤ) (l : List CleanRow) :
    (List.orderedInsert recLe x l).filter (fun r => decide (recKey r = k)) =
      if recKey x = k then
        x :: l.filter (fun r => decide (recKey r = k))
      else l.filter (fun r => decide (recKey r = k)) := by
  induction l with
  | nil =>
    simp only [List.orderedInsert, List.filter_cons, List.filter_nil,
      decide_eq_true_eq]
  | cons y l ih =>
    by_cases hxy : recLe x y
    · rw [List.orderedInsert, if_pos hxy]
      simp only [List.filter_cons, decide_eq_true_eq]
    · rw [List.orderedInsert, if_neg hxy]
      have hkey : recKey x = k → recKey y ≠ k := by
        intro hx hy
        apply hxy
        have : recKey x = recKey y := hx.trans hy.symm
        unfold recKey at this
        unfold recLe
        simp only [Prod.mk.injEq] at this
        omega
      by_cases hx : recKey x = k
      · have hy := hkey hx
        simp only [List.filter_cons, decide_eq_true_eq, if_neg hy, ih, if_pos hx]
      · simp only [List.filter_cons, decide_eq_true_eq, ih, if_neg hx]

/-- Stability of the whole sort: filtering the sorted frame on any fixed
(doll_id, uttered_at) key gives the records in their original order. -/
lemma filter_key_sort_values (df : List CleanRow) (k : ℕ × ℤ) :
    (sort_values df).filter (fun r => decide (recKey r = k)) =
      df.filter (fun r => decide (recKey r = k)) := by
  unfold sort_values
  induction df with
  | nil => rfl
  | cons a l ih =>
    rw [List.insertionSort, filter_key_orderedInsert, ih]
    by_cases ha : recKey a = k
    · simp only [if_pos ha, List.filter_cons, decide_eq_true_eq, if_pos ha]
    · simp only [if_neg ha, List.filter_cons, decide_eq_true_eq, if_neg ha]

/-! ## Whitespace-normalization lemmas (pass e is idempotent). -/

lemma head_dropWhile_space (l : List Char) :
    ∀ c, (l.dropWhile isPySpace).head? = some c → isPySpace c = false := by
  intro c hc
  have := List.head?_dropWhile_not isPySpace l
  rw [hc] at this
  exact this

lemma collapseWs_head_not_space (l : List Char)
    (h : ∀ c, l.head? = some c → isPySpace c = false) :
    (collapseWs l).head? = l.head? := by
  cases l with
  | nil => simp [collapseWs]
  | cons c rest => simp [collapseWs, h c rfl]

lemma collapseWs_wsNormal (l : List Char) :
    List.Chain' (fun a b => ¬(isPySpace a = true ∧ isPySpace b = true))
      (collapseWs l) ∧
    (∀ c ∈ collapseWs l, isPySpace c = true → c = ' ') := by
  induction l using collapseWs.induct with
  | case1 =>
    have h0 : collapseWs ([] : List Char) = [] := by simp [collapseWs]
    rw [h0]
    exact ⟨List.chain'_nil, by simp⟩
  | case2 c rest h ih =>
    have heq : collapseWs (c :: rest) =
        ' ' :: collapseWs (rest.dropWhile isPySpace) := by
      simp [collapseWs, h]
    rw [heq]
    constructor
    · refine List.chain'_cons'.mpr ⟨?_, ih.1⟩
      intro y hy
      rw [collapseWs_head_not_space _ (head_dropWhile_space rest)] at hy
      rintro ⟨-, hsp⟩
      rw [head_dropWhile_space rest y hy] at hsp
      exact Bool.false_ne_true hsp
    · intro d hd hspd
      rcases List.mem_cons.mp hd with rfl | hd
      · rfl
      · exact ih.2 d hd hspd
  | case3 c rest h ih =>
    have heq : collapseWs (c :: rest) = c :: collapseWs rest := by
      simp [collapseWs, h]
    rw [heq]
    constructor
    · refine List.chain'_cons'.mpr ⟨?_, ih.1⟩
      intro y _
      rintro ⟨hc, -⟩
      exact h hc
    · intro d hd hspd
      rcases List.mem_cons.mp hd with rfl | hd
      · exact absurd hspd h
      · exact ih.2 d hd hspd

lemma pyStrip_startPiece (l : List Char) :
    pyStrip l <+: l.dropWhile isPySpace := by
  have h2 : ((l.dropWhile isPySpace).reverse.dropWhile isPySpace) <:+
      (l.dropWhile isPySpace).reverse := List.dropWhile_suffix isPySpace
  rw [show (l.dropWhile isPySpace).reverse.dropWhile isPySpace =
    (((l.dropWhile isPySpace).reverse.dropWhile isPySpace).reverse).reverse from
      (List.reverse_reverse _).symm] at h2
  exact List.reverse_suffix.mp h2

lemma pyStrip_within (l : List Char) : pyStrip l <:+: l :=
  (pyStrip_startPiece l).isInfix.trans (List.dropWhile_suffix isPySpace).isInfix

lemma pyStrip_head_not_space (l : List Char) :
    ∀ c, (pyStrip l).head? = some c → isPySpace c = false := by
  intro c hc
  obtain ⟨t, ht⟩ := pyStrip_startPiece l
  cases hp : pyStrip l with
  | nil => rw [hp] at hc; exact absurd hc (by simp)
  | cons a tl =>
    rw [hp] at hc ht
    simp only [List.head?_cons, Option.some.injEq] at hc
    rw [← hc]
    refine head_dropWhile_space l a ?_
    rw [← ht]
    rfl

lemma pyStrip_reverse_head_not_space (l : List Char) :
    ∀ c, (pyStrip l).reverse.head? = some c → isPySpace c = false := by
  have hrev : (pyStrip l).reverse =
      (l.dropWhile isPySpace).reverse.dropWhile isPySpace := by
    unfold pyStrip
    rw [List.reverse_reverse]
  intro c hc
  rw [hrev] at hc
  exact head_dropWhile_space _ c hc

lemma dropWhile_eq_self_of_head (l : List Char)
    (h : ∀ c, l.head? = some c → isPySpace c = false) :
    l.dropWhile isPySpace = l := by
  cases l with
  | nil => rfl
  | cons c rest => simp [List.dropWhile_cons, h c rfl]

lemma pyStrip_eq_self (l : List Char)
    (hh : ∀ c, l.head? = some c → isPySpace c = false)
    (hl : ∀ c, l.reverse.head? = some c → isPySpace c = false) :
    pyStrip l = l := by
  unfold pyStrip
  rw [dropWhile_eq_self_of_head l hh, dropWhile_eq_self_of_head l.reverse hl,
    List.reverse_reverse]

lemma collapseWs_eq_self (l : List Char)
    (hch : List.Chain' (fun a b => ¬(isPySpace a = true ∧ isPySpace b = true)) l)
    (hsp : ∀ c ∈ l, isPySpace c = true → c = ' ') :
    collapseWs l = l := by
  induction l with
  | nil => simp [collapseWs]
  | cons c rest ih =>
    obtain ⟨hhead, htail⟩ := List.chain'_cons'.mp hch
    by_cases hc : isPySpace c = true
    · have hrest : rest.dropWhile isPySpace = rest := by
        apply dropWhile_eq_self_of_head
        intro d hd
        by_contra hd'
        exact hhead d hd ⟨hc, by simpa using hd'⟩
      have heq : collapseWs (c :: rest) = ' ' :: collapseWs rest := by
        simp [collapseWs, hc, hrest]
      rw [heq, ih htail (fun d hd => hsp d (List.mem_cons_of_mem _ hd)),
        hsp c (List.mem_cons_self _ _) hc]
    · have heq : collapseWs (c :: rest) = c :: collapseWs rest := by
        simp [collapseWs, hc]
      rw [heq, ih htail (fun d hd => hsp d (List.mem_cons_of_mem _ hd))]

/-- The whitespace pass (collapse runs, then strip) is idempotent. -/
lemma normalize_idem (z : List Char) :
    pyStrip (collapseWs (pyStrip (collapseWs z))) = pyStrip (collapseWs z) := by
  obtain ⟨hch, hsp⟩ := collapseWs_wsNormal z
  have hinf := pyStrip_within (collapseWs z)
  have hchs : List.Chain'
      (fun a b => ¬(isPySpace a = true ∧ isPySpace b = true))
      (pyStrip (collapseWs z)) := List.Chain'.infix hch hinf
  have hcw : collapseWs (pyStrip (collapseWs z)) = pyStrip (collapseWs z) :=
    collapseWs_eq_self _ hchs fun c hc => hsp c (hinf.subset hc)
  rw [hcw]
  exact pyStrip_eq_self _ (pyStrip_head_not_space _)
    (pyStrip_reverse_head_not_space _)

/-! ## Sentence-table lemmas -/

lemma blockOf_key (split : String → Except String (List String)) (u : Utt) :
    ∀ r ∈ blockOf split u, eKey r = uKey u := by
  intro r hr
  unfold blockOf at hr
  split at hr
  · simp only [List.mem_singleton] at hr
    subst hr; rfl
  · simp only [List.mem_map] at hr
    obtain ⟨s, _, rfl⟩ := hr
    rfl

lemma cumcountAux_append (l₁ l₂ : List ExRow) :
    ∀ seen, cumcountAux seen (l₁ ++ l₂) =
      cumcountAux seen l₁ ++ cumcountAux (seen ++ l₁) l₂ := by
  induction l₁ with
  | nil => intro seen; simp [cumcountAux]
  | cons r l ih =>
    intro seen
    rw [List.cons_append,
      show cumcountAux seen (r :: (l ++ l₂)) =
        (r, (seen.filter fun x => decide (eKey x = eKey r)).length) ::
          cumcountAux (seen ++ [r]) (l ++ l₂) from rfl,
      show cumcountAux seen (r :: l) =
        (r, (seen.filter fun x => decide (eKey x = eKey r)).length) ::
          cumcountAux (seen ++ [r]) l from rfl,
      ih (seen ++ [r]), List.append_assoc]
    rfl

lemma cumcountAux_block (d w n : ℕ) (sents : List String) :
    ∀ seen : List ExRow,
    cumcountAux seen (sents.map fun s => (⟨d, w, n, some s⟩ : ExRow)) =
      (List.enumFrom
        ((seen.filter fun x => decide (eKey x = (d, w))).length) sents).map
        fun q => ((⟨d, w, n, some q.2⟩ : ExRow), q.1) := by
  induction sents with
  | nil => intro seen; rfl
  | cons s rest ih =>
    intro seen
    have hcount : ((seen ++ [(⟨d, w, n, some s⟩ : ExRow)]).filter fun x =>
        decide (eKey x = (d, w))).length =
        (seen.filter fun x => decide (eKey x = (d, w))).length + 1 := by
      simp [List.filter_append, eKey]
    have he : eKey (⟨d, w, n, some s⟩ : ExRow) = (d, w) := rfl
    simp only [List.map_cons, cumcountAux, List.enumFrom_cons, he]
    rw [ih (seen ++ [(⟨d, w, n, some s⟩ : ExRow)]), hcount]

lemma cumcountAux_nan (d w : ℕ) (seen : List ExRow) :
    cumcountAux seen [(⟨d, w, 0, none⟩ : ExRow)] =
      [((⟨d, w, 0, none⟩ : ExRow),
        (seen.filter fun x => decide (eKey x = (d, w))).length)] := by
  simp [cumcountAux, eKey]

lemma block_contrib (split : String → Except String (List String))
    (u : Utt) (seen : List ExRow)
    (h0 : (seen.filter fun x => decide (eKey x = uKey u)).length = 0) :
    ((cumcountAux seen (blockOf split u)).filterMap fun p =>
      p.1.sent.map fun s =>
        (⟨p.1.doll_id, p.1.window_id, p.2, p.1.sentences_count, s⟩ : SentRow)) =
      sentBlock split u := by
  simp only [uKey] at h0
  unfold blockOf sentBlock
  cases hs : kss_split_safe split (some u.texts) with
  | nil =>
    rw [cumcountAux_nan]
    rfl
  | cons a rest =>
    rw [cumcountAux_block, h0, List.filterMap_map]
    simp only [List.enum]
    rw [show ((fun p : ExRow × ℕ =>
        Option.map (fun s =>
          (⟨p.1.doll_id, p.1.window_id, p.2, p.1.sentences_count, s⟩ : SentRow))
          p.1.sent) ∘
        fun q : ℕ × String =>
          ((⟨u.doll_id, u.window_id, (a :: rest).length, some q.2⟩ : ExRow), q.1)) =
      some ∘ (fun q : ℕ × String =>
        (⟨u.doll_id, u.window_id, q.1, (a :: rest).length, q.2⟩ : SentRow)) from rfl,
      List.filterMap_eq_map]

lemma split_aux (split : String → Except String (List String)) :
    ∀ (vs : List Utt) (seen : List ExRow),
    (vs.map uKey).Nodup →
    (∀ r ∈ seen, ∀ u ∈ vs, eKey r ≠ uKey u) →
    ((cumcountAux seen (explodeRows split vs)).filterMap fun p =>
      p.1.sent.map fun s =>
        (⟨p.1.doll_id, p.1.window_id, p.2, p.1.sentences_count, s⟩ : SentRow)) =
      vs.flatMap (sentBlock split) := by
  intro vs
  induction vs with
  | nil => intro seen _ _; rfl
  | cons u vs ih =>
    intro seen hnd hseen
    have hexp : explodeRows split (u :: vs) =
        blockOf split u ++ explodeRows split vs := rfl
    rw [hexp, cumcountAux_append, List.filterMap_append]
    obtain ⟨hnotmem, hnd'⟩ := List.nodup_cons.mp hnd
    have hseen0 : (seen.filter fun x => decide (eKey x = uKey u)).length = 0 := by
      rw [List.length_eq_zero, List.filter_eq_nil_iff]
      intro r hr
      simpa using hseen r hr u (List.mem_cons_self u vs)
    have hseen' : ∀ r ∈ seen ++ blockOf split u, ∀ u' ∈ vs, eKey r ≠ uKey u' := by
      intro r hr u' hu'
      rcases List.mem_append.mp hr with hr | hr
      · exact hseen r hr u' (List.mem_cons_of_mem u hu')
      · rw [blockOf_key split u r hr]
        intro hk
        exact hnotmem (hk ▸ List.mem_map_of_mem uKey hu')
    rw [List.flatMap_cons, ih (seen ++ blockOf split u) hnd' hseen',
      block_contrib split u seen hseen0]

lemma split_sentences_eq (split : String → Except String (List String))
    (us : List Utt) (hnd : ((us.take 30).map uKey).Nodup) :
    split_sentences_keep_schema split us = (us.take 30).flatMap (sentBlock split) := by
  unfold split_sentences_keep_schema
  exact split_aux split (us.take 30) [] hnd (by intro r hr; simp at hr)

lemma join_keys_nodup (df : List WinRow) :
    ((join_texts_by_window df).map uKey).Nodup := by
  unfold join_texts_by_window
  rw [List.map_map]
  have hcomp : (uKey ∘ fun k : ℕ × ℕ =>
      (⟨k.1, k.2, " ".intercalate
        ((df.filter fun r => decide (wKey r = k)).map WinRow.text)⟩ : Utt)) = id := by
    funext k
    cases k
    rfl
  rw [hcomp, List.map_id]
  exact ((List.perm_insertionSort pairLe _).nodup_iff).mpr (List.nodup_dedup _)

lemma sentBlock_key (split : String → Except String (List String)) (u : Utt) :
    ∀ r ∈ sentBlock split u, sKey r = uKey u := by
  intro r hr
  unfold sentBlock at hr
  simp only [List.mem_map] at hr
  obtain ⟨q, _, rfl⟩ := hr
  rfl

lemma filter_sentBlock (split : String → Except String (List String))
    (u : Utt) (k : ℕ × ℕ) :
    (sentBlock split u).filter (fun r => decide (sKey r = k)) =
      if uKey u = k then sentBlock split u else [] := by
  by_cases h : uKey u = k
  · rw [if_pos h]
    apply List.filter_eq_self.mpr
    intro r hr
    simp [sentBlock_key split u r hr, h]
  · rw [if_neg h]
    apply List.filter_eq_nil_iff.mpr
    intro r hr
    simp [sentBlock_key split u r hr, h]

lemma group_blocks (split : String → Except String (List String))
    (vs : List Utt) (k : ℕ × ℕ) :
    ((vs.flatMap (sentBlock split)).filter fun r => decide (sKey r = k)) =
      (vs.filter fun u => decide (uKey u = k)).flatMap (sentBlock split) := by
  induction vs with
  | nil => rfl
  | cons u vs ih =>
    rw [List.flatMap_cons, List.filter_append, ih, List.filter_cons,
      filter_sentBlock]
    by_cases h : uKey u = k <;> simp [h]

lemma filter_key_unique (vs : List Utt) (k : ℕ × ℕ)
    (h : (vs.map uKey).Nodup) :
    (vs.filter fun u => decide (uKey u = k)).length ≤ 1 := by
  induction vs with
  | nil => simp
  | cons u vs ih =>
    obtain ⟨hnm, hnd⟩ := List.nodup_cons.mp h
    rw [List.filter_cons]
    by_cases hk : uKey u = k
    · have hnil : vs.filter (fun u' => decide (uKey u' = k)) = [] := by
        rw [List.filter_eq_nil_iff]
        intro u' hu'
        simp only [decide_eq_true_eq]
        intro hke
        apply hnm
        rw [hk, ← hke]
        exact List.mem_map_of_mem uKey hu'
      simp [hk, hnil]
    · simpa [hk] using ih hnd

/-! ## Theorem for segmentation totality -/

/-- C8: sentence splitting is total (it returns a list in every case, so
no error reaches the caller): a non-string input or a blank string yields
the empty sequence; when the external segmenter throws, the result is the
regex fallback (split at whitespace preceded by `.`/`!`/`?`), stripped,
with empties discarded; when it succeeds its sentences are stripped and
empties discarded; and no returned sentence is ever empty. -/
theorem kss_split_safe_contract (split : String → Except String (List String)) :
    kss_split_safe split none = [] ∧
    (∀ t : String, pyStripS t = "" → kss_split_safe split (some t) = []) ∧
    (∀ t e, split t = .error e → pyStripS t ≠ "" →
      kss_split_safe split (some t) =
        ((fallbackSplitAux [] t.data).map fun p => pyStripS ⟨p⟩).filter
          fun s => decide (s ≠ "")) ∧
    (∀ t sents, split t = .ok sents → pyStripS t ≠ "" →
      kss_split_safe split (some t) =
        (sents.map pyStripS).filter fun s => decide (s ≠ "")) ∧
    (∀ text s, s ∈ kss_split_safe split text → s ≠ "") := by
  refine ⟨rfl, ?_, ?_, ?_, ?_⟩
  · intro t ht
    simp [kss_split_safe, ht]
  · intro t e he ht
    simp [kss_split_safe, ht, he]
  · intro t sents hok ht
    simp [kss_split_safe, ht, hok]
  · intro text s hs
    cases text with
    | none => simp [kss_split_safe] at hs
    | some t =>
      by_cases ht : pyStripS t = ""
      · simp [kss_split_safe, ht] at hs
      · cases hsplit : split t with
        | ok sents =>
          simp only [kss_split_safe, if_neg ht, hsplit, List.mem_filter,
            decide_eq_true_eq] at hs
          exact hs.2
        | error e =>
          simp only [kss_split_safe, if_neg ht, hsplit, List.mem_filter,
            decide_eq_true_eq] at hs
          exact hs.2

/-- C8 witness: with a segmenter that always throws, a `None` input and a
blank string give `[]`, and `"a. b  c! d"` is split by the regex fallback
into three stripped, nonempty sentences. -/
theorem kss_split_safe_contract_witness :
    kss_split_safe (fun _ => .error "kss") none = [] ∧
    kss_split_safe (fun _ => .error "kss") (some "  ") = [] ∧
    kss_split_safe (fun _ => .error "kss") (some "a. b  c! d") =
      ((fallbackSplitAux [] "a. b  c! d".data).map fun p => pyStripS ⟨p⟩).filter
        (fun s => decide (s ≠ "")) ∧
    kss_split_safe (fun _ => .error "kss") (some "a. b  c! d") =
      ["a.", "b  c!", "d"] ∧
    "" ∉ kss_split_safe (fun _ => .error "kss") (some "a. b  c! d") := by
  obtain ⟨h1, h2, h3, _, h5⟩ :=
    kss_split_safe_contract (fun _ => .error "kss")
  have hfb := h3 "a. b  c! d" "kss" rfl (by decide)
  refine ⟨h1, h2 "  " (by decide), hfb, ?_, fun h => h5 _ "" h rfl⟩
  rw [hfb]
  simp [fallbackSplitAux, pyStripS, pyStrip, isPySpace]

/-! ## Theorems for windowing -/

/-- C1: on the frame sorted by (doll_id, uttered_at) — speaker blocks are
contiguous and ascending in time (third conjunct) — the first row has
window_id 0, each row whose speaker equals its predecessor's gets the
predecessor's window_id plus 1 exactly when the gap is strictly greater
than 300 seconds (so a gap of exactly 300 seconds does not split), and a
row starting a new speaker block restarts at window_id 0. -/
theorem generate_window_id_contract (df : List CleanRow) :
    (∀ (h0 : 0 < (generate_window_id df).length),
      ((generate_window_id df).get ⟨0, h0⟩).window_id = 0) ∧
    (∀ (i : ℕ) (h1 : i + 1 < (generate_window_id df).length)
      (h2 : i < (generate_window_id df).length),
      (((generate_window_id df).get ⟨i + 1, h1⟩).doll_id =
          ((generate_window_id df).get ⟨i, h2⟩).doll_id →
        ((generate_window_id df).get ⟨i + 1, h1⟩).window_id =
          ((generate_window_id df).get ⟨i, h2⟩).window_id +
            (if ((generate_window_id df).get ⟨i + 1, h1⟩).uttered_at -
                ((generate_window_id df).get ⟨i, h2⟩).uttered_at > 300
             then 1 else 0)) ∧
      (((generate_window_id df).get ⟨i + 1, h1⟩).doll_id ≠
          ((generate_window_id df).get ⟨i, h2⟩).doll_id →
        ((generate_window_id df).get ⟨i + 1, h1⟩).window_id = 0)) ∧
    List.Pairwise (fun a b : WinRow =>
      a.doll_id < b.doll_id ∨ (a.doll_id = b.doll_id ∧ a.uttered_at ≤ b.uttered_at))
      (generate_window_id df) := by
  refine ⟨?_, ?_, ?_⟩
  · intro h0
    exact windowAux_none_head (sort_values df) h0
  · intro i h1 h2
    have hchain := windowAux_chain (sort_values df) none
    have hstep := List.chain'_iff_get.mp hchain i (by
      unfold generate_window_id at h1; omega)
    unfold stepOk at hstep
    unfold generate_window_id at *
    constructor
    · intro hsame
      rw [hstep, if_pos hsame]
      split_ifs <;> omega
    · intro hdiff
      rw [hstep, if_neg hdiff]
  · have hsorted : List.Pairwise recLe (sort_values df) :=
      List.sorted_insertionSort recLe df
    have hmap : List.Pairwise
        (fun a b : ℕ × ℤ => a.1 < b.1 ∨ (a.1 = b.1 ∧ a.2 ≤ b.2))
        ((sort_values df).map fun r => (r.doll_id, r.uttered_at)) := by
      rw [List.pairwise_map]
      exact hsorted.imp fun h => h
    rw [← windowAux_map_fields (sort_values df) none, List.pairwise_map] at hmap
    exact hmap.imp fun h => h

/-- C1 witness: on `exampleDf` the first sorted row gets window_id 0, row
2 (speaker 1, gap 360 s) gets its predecessor's id plus the split
indicator, and row 3 (speaker change to speaker 2) restarts at 0. -/
theorem generate_window_id_contract_witness :
    ((generate_window_id exampleDf).get ⟨0, by decide⟩).window_id = 0 ∧
    ((generate_window_id exampleDf).get ⟨2, by decide⟩).window_id =
      ((generate_window_id exampleDf).get ⟨1, by decide⟩).window_id +
        (if ((generate_window_id exampleDf).get ⟨2, by decide⟩).uttered_at -
            ((generate_window_id exampleDf).get ⟨1, by decide⟩).uttered_at > 300
         then 1 else 0) ∧
    ((generate_window_id exampleDf).get ⟨3, by decide⟩).window_id = 0 := by
  obtain ⟨h0, hstep, _⟩ := generate_window_id_contract exampleDf
  exact ⟨h0 (by decide),
    (hstep 1 (by decide) (by decide)).1 (by decide),
    (hstep 2 (by decide) (by decide)).2 (by decide)⟩

/-- C9: `sort_values` permutes the frame into (doll_id, uttered_at) order
and is stable — for every fixed sort key the records keep their original
relative order — and every joined window's text is the records' texts of
that (doll_id, window_id) group joined with a single space in frame
(i.e. chronological) order. -/
theorem join_order_contract (df : List CleanRow) :
    (sort_values df).Perm df ∧
    List.Sorted recLe (sort_values df) ∧
    (∀ k : ℕ × ℤ,
      (sort_values df).filter (fun r => decide (recKey r = k)) =
        df.filter (fun r => decide (recKey r = k))) ∧
    (∀ u ∈ join_texts_by_window (generate_window_id df),
      u.texts = " ".intercalate
        (((generate_window_id df).filter fun r =>
          decide (wKey r = (u.doll_id, u.window_id))).map WinRow.text)) := by
  refine ⟨List.perm_insertionSort recLe df, List.sorted_insertionSort recLe df,
    filter_key_sort_values df, ?_⟩
  intro u hu
  simp only [join_texts_by_window, List.mem_map] at hu
  obtain ⟨k, _, rfl⟩ := hu
  obtain ⟨a, b⟩ := k
  rfl

/-- C9 witness: the two tied records keep their original order in the
sorted frame, and the single window joins the three texts in
chronological order with single spaces. -/
theorem join_order_contract_witness :
    (sort_values tieDf).filter (fun r => decide (recKey r = (1, 100))) =
      [⟨1, 100, "x"⟩, ⟨1, 100, "y"⟩] ∧
    (⟨1, 0, "w x y"⟩ : Utt).texts =
      " ".intercalate (((generate_window_id tieDf).filter fun r =>
        decide (wKey r = ((⟨1, 0, "w x y"⟩ : Utt).doll_id,
          (⟨1, 0, "w x y"⟩ : Utt).window_id))).map WinRow.text) := by
  obtain ⟨_, _, hstab, hjoin⟩ := join_order_contract tieDf
  refine ⟨?_, ?_⟩
  · rw [hstab (1, 100)]
    rfl
  · exact hjoin ⟨1, 0, "w x y"⟩ (by decide)

/-- C7 counterexample: a record whose three required fields are all
present but whose extra column holds a null is dropped by
`remove_missing` (`df.dropna()` looks at every column), contradicting the
claim that exactly the records with a missing required field are dropped. -/
theorem remove_missing_extra_null_cex :
    ((⟨some 1, some 0, some "hello", [none]⟩ : RawRow).doll_id.isSome ∧
     (⟨some 1, some 0, some "hello", [none]⟩ : RawRow).uttered_at.isSome ∧
     (⟨some 1, some 0, some "hello", [none]⟩ : RawRow).text.isSome) ∧
    remove_missing [⟨some 1, some 0, some "hello", [none]⟩] = [] := by
  exact ⟨⟨rfl, rfl, rfl⟩, rfl⟩

/-- C7 amended: `remove_missing` silently drops exactly the records with
a null in ANY column; on a frame whose only columns are the three
required ones this is exactly the records with a missing required field,
each surviving record projecting to its (present) field values. -/
theorem remove_missing_amended (df : List RawRow)
    (hex : ∀ r ∈ df, r.extra = []) :
    remove_missing df =
      (df.filter fun r =>
        r.doll_id.isSome && r.uttered_at.isSome && r.text.isSome).map
          fun r => (⟨r.doll_id.getD 0, r.uttered_at.getD 0, r.text.getD ""⟩ : CleanRow) := by
  unfold remove_missing
  congr 1
  apply List.filter_congr
  intro r hr
  simp [rowComplete, hex r hr]

/-- C7 amended witness: a two-row frame with no extra columns where the
second row misses `uttered_at`; exactly the first row survives. -/
theorem remove_missing_amended_witness :
    remove_missing
      [⟨some 1, some 2, some "a", []⟩, ⟨some 1, none, some "b", []⟩] =
      [⟨1, 2, "a"⟩] := by
  rw [remove_missing_amended _ (by intro r hr; simp at hr; rcases hr with rfl | rfl <;> rfl)]
  rfl

/-! ## Theorems for the scoring components -/

/-- C5: for every input text, the lexicon scorer returns exactly one entry
per configured category (positive, negative, danger — always present), each
category's score is the sum over its (keyword, weight) pairs of
(non-overlapping left-to-right occurrence count) × weight, the score
defaults to 0 when no keyword of the category matches, and every score is
nonnegative. -/
theorem keyword_count_score_contract (text : String) :
    (keyword_count_score text).map Prod.fst =
      ["keyword_score_positive", "keyword_score_negative", "keyword_score_danger"] ∧
    (∀ category keywords, (category, keywords) ∈ lexicon →
      ("keyword_score_" ++ category,
        (keywords.map fun kw =>
          (countOcc kw.1.data text.data : ℚ) * kw.2).sum) ∈ keyword_count_score text) ∧
    (∀ category keywords, (category, keywords) ∈ lexicon →
      (∀ kw ∈ keywords, countOcc kw.1.data text.data = 0) →
      ("keyword_score_" ++ category, (0 : ℚ)) ∈ keyword_count_score text) ∧
    (∀ p ∈ keyword_count_score text, 0 ≤ p.2) := by
  refine ⟨by simp [keyword_count_score, lexicon], ?_, ?_, ?_⟩
  · intro category keywords h
    exact List.mem_map_of_mem _ h
  · intro category keywords h h0
    have hsum : (keywords.map fun kw =>
        (countOcc kw.1.data text.data : ℚ) * kw.2).sum = 0 := by
      apply List.sum_eq_zero
      intro x hx
      simp only [List.mem_map] at hx
      obtain ⟨kw, hkw, rfl⟩ := hx
      rw [h0 kw hkw]
      simp
    have := List.mem_map_of_mem (fun p : String × List (String × ℚ) =>
      ("keyword_score_" ++ p.1,
        (p.2.map fun kw => (countOcc kw.1.data text.data : ℚ) * kw.2).sum)) h
    rw [← hsum]
    exact this
  · intro p hp
    simp only [keyword_count_score, lexicon, List.map_cons, List.map_nil,
      List.mem_cons, List.not_mem_nil, or_false] at hp
    rcases hp with rfl | rfl | rfl <;>
      · simp only [List.sum_cons, List.sum_nil]
        positivity

/-- C5 witness: concrete evaluation of the contract at a sample text
("좋아" occurs twice, no negative or danger keyword occurs). -/
theorem keyword_count_score_contract_witness :
    (keyword_count_score "좋아 좋아").map Prod.fst =
      ["keyword_score_positive", "keyword_score_negative", "keyword_score_danger"] ∧
    ("keyword_score_positive", (8 : ℚ)/5) ∈ keyword_count_score "좋아 좋아" ∧
    ("keyword_score_danger", (0 : ℚ)) ∈ keyword_count_score "좋아 좋아" := by
  obtain ⟨h1, h2, h3, _⟩ := keyword_count_score_contract "좋아 좋아"
  refine ⟨h1, ?_, ?_⟩
  · have := h2 "positive" [("고마워", 1.0), ("좋아", 0.8), ("행복", 1.0)]
      (by simp [lexicon])
    have c1 : countOcc "고마워".data "좋아 좋아".data = 0 := by simp [countOcc]
    have c2 : countOcc "좋아".data "좋아 좋아".data = 2 := by simp [countOcc]
    have c3 : countOcc "행복".data "좋아 좋아".data = 0 := by simp [countOcc]
    have heval : ([("고마워", (1.0 : ℚ)), ("좋아", 0.8), ("행복", 1.0)].map fun kw =>
        (countOcc kw.1.data "좋아 좋아".data : ℚ) * kw.2).sum = 8/5 := by
      simp only [List.map_cons, List.map_nil, List.sum_cons, List.sum_nil, c1, c2, c3]
      norm_num
    rwa [heval] at this
  · refine h3 "danger" [("죽고 싶", 2.0), ("끝내고 싶", 2.0)] (by simp [lexicon]) ?_
    intro kw hkw
    simp only [List.mem_cons, List.not_mem_nil, or_false] at hkw
    rcases hkw with rfl | rfl <;> simp [countOcc]

/-- C4: the sentiment adapter is 1:1 (one result per input text, order
preserved); if the classifier's dominant label is "positive" (case
insensitively) then sentiment_pos is the classifier confidence and
sentiment_neg its complement, otherwise the roles swap; consequently
sentiment_pos + sentiment_neg = 1 and, when the confidence lies in [0,1],
both components lie in [0,1]. -/
theorem get_sentiment_scores_contract (outputs : List ClassifierOutput)
    (texts : List String)
    (hlen : outputs.length = texts.length)
    (hs : ∀ o ∈ outputs, 0 ≤ o.score ∧ o.score ≤ 1) :
    (get_sentiment_scores outputs texts).length = texts.length ∧
    ∀ i (hi : i < (get_sentiment_scores outputs texts).length)
      (ht : i < texts.length) (ho : i < outputs.length),
      ((get_sentiment_scores outputs texts).get ⟨i, hi⟩).text = texts.get ⟨i, ht⟩ ∧
      ((get_sentiment_scores outputs texts).get ⟨i, hi⟩).sentiment_pos +
        ((get_sentiment_scores outputs texts).get ⟨i, hi⟩).sentiment_neg = 1 ∧
      0 ≤ ((get_sentiment_scores outputs texts).get ⟨i, hi⟩).sentiment_pos ∧
      ((get_sentiment_scores outputs texts).get ⟨i, hi⟩).sentiment_pos ≤ 1 ∧
      0 ≤ ((get_sentiment_scores outputs texts).get ⟨i, hi⟩).sentiment_neg ∧
      ((get_sentiment_scores outputs texts).get ⟨i, hi⟩).sentiment_neg ≤ 1 ∧
      (if pyLower (outputs.get ⟨i, ho⟩).label = "positive" then
        ((get_sentiment_scores outputs texts).get ⟨i, hi⟩).sentiment_pos =
          (outputs.get ⟨i, ho⟩).score
       else
        ((get_sentiment_scores outputs texts).get ⟨i, hi⟩).sentiment_neg =
          (outputs.get ⟨i, ho⟩).score) := by
  constructor
  · simp [get_sentiment_scores, hlen]
  · intro i hi ht ho
    have hget : (get_sentiment_scores outputs texts).get ⟨i, hi⟩ =
        (if pyLower (outputs.get ⟨i, ho⟩).label = "positive" then
          { text := texts.get ⟨i, ht⟩,
            sentiment_pos := (outputs.get ⟨i, ho⟩).score,
            sentiment_neg := 1 - (outputs.get ⟨i, ho⟩).score }
         else
          { text := texts.get ⟨i, ht⟩,
            sentiment_pos := 1 - (outputs.get ⟨i, ho⟩).score,
            sentiment_neg := (outputs.get ⟨i, ho⟩).score }) := by
      simp [get_sentiment_scores, List.get_eq_getElem, List.getElem_zip]
    obtain ⟨h0, h1⟩ := hs (outputs.get ⟨i, ho⟩) (List.get_mem _ _ _)
    rw [hget]
    by_cases hpos : pyLower (outputs.get ⟨i, ho⟩).label = "positive"
    · simp only [if_pos hpos]
      refine ⟨trivial, ?_, h0, h1, ?_, ?_, trivial⟩
      · show (outputs.get ⟨i, ho⟩).score + (1 - (outputs.get ⟨i, ho⟩).score) = 1
        ring
      · show (0 : ℚ) ≤ 1 - (outputs.get ⟨i, ho⟩).score
        linarith
      · show 1 - (outputs.get ⟨i, ho⟩).score ≤ 1
        linarith
    · simp only [if_neg hpos]
      refine ⟨trivial, ?_, ?_, ?_, h0, h1, trivial⟩
      · show 1 - (outputs.get ⟨i, ho⟩).score + (outputs.get ⟨i, ho⟩).score = 1
        ring
      · show (0 : ℚ) ≤ 1 - (outputs.get ⟨i, ho⟩).score
        linarith
      · show 1 - (outputs.get ⟨i, ho⟩).score ≤ 1
        linarith

/-- C4 witness: a single-text batch with a "Positive" label at confidence
9/10 yields one result whose two sides sum to 1 and whose positive side is
the confidence. -/
theorem get_sentiment_scores_contract_witness :
    (get_sentiment_scores [⟨"Positive", 9/10⟩] ["a"]).length = 1 ∧
    ((get_sentiment_scores [⟨"Positive", 9/10⟩] ["a"]).get
        ⟨0, by decide⟩).sentiment_pos +
      ((get_sentiment_scores [⟨"Positive", 9/10⟩] ["a"]).get
        ⟨0, by decide⟩).sentiment_neg = 1 ∧
    ((get_sentiment_scores [⟨"Positive", 9/10⟩] ["a"]).get
        ⟨0, by decide⟩).sentiment_pos = 9/10 := by
  obtain ⟨hlen, h⟩ := get_sentiment_scores_contract [⟨"Positive", 9/10⟩] ["a"]
    (by rfl) (by intro o ho; simp at ho; subst ho; norm_num)
  obtain ⟨-, hsum, -, -, -, -, hif⟩ := h 0 (by decide) (by decide) (by decide)
  refine ⟨hlen, hsum, ?_⟩
  simpa using hif

/-- C2: in the sentence-level table, for every (doll_id, window_id)
group, the sentence_index values are exactly 0, 1, …, n−1 in order, where
n is the group's row count, and every row of the group carries
sentences_count = n (the number of nonempty sentences produced for that
window, since the group holds one row per such sentence). -/
theorem sentence_index_contract (split : String → Except String (List String))
    (wr : List WinRow) (d w : ℕ) :
    (((split_sentences_keep_schema split (join_texts_by_window wr)).filter
        fun r => decide (sKey r = (d, w))).map SentRow.sentence_index) =
      List.range ((split_sentences_keep_schema split (join_texts_by_window wr)).filter
        fun r => decide (sKey r = (d, w))).length ∧
    ∀ r ∈ (split_sentences_keep_schema split (join_texts_by_window wr)).filter
        fun r => decide (sKey r = (d, w)),
      r.sentences_count =
        ((split_sentences_keep_schema split (join_texts_by_window wr)).filter
          fun r => decide (sKey r = (d, w))).length := by
  have hnd : (((join_texts_by_window wr).take 30).map uKey).Nodup := by
    rw [List.map_take]
    exact (join_keys_nodup wr).sublist (List.take_sublist 30 _)
  rw [split_sentences_eq split _ hnd, group_blocks]
  have hle := filter_key_unique ((join_texts_by_window wr).take 30) (d, w) hnd
  rcases hf : ((join_texts_by_window wr).take 30).filter
      (fun u => decide (uKey u = (d, w))) with _ | ⟨u, rest⟩
  · simp
  · rw [hf] at hle
    have hrest : rest = [] := by
      simp only [List.length_cons] at hle
      exact List.eq_nil_of_length_eq_zero (by omega)
    subst hrest
    simp only [List.flatMap_cons, List.flatMap_nil, List.append_nil]
    constructor
    · unfold sentBlock
      rw [List.map_map]
      rw [show (SentRow.sentence_index ∘ fun q : ℕ × String =>
          (⟨u.doll_id, u.window_id, q.1,
            (kss_split_safe split (some u.texts)).length, q.2⟩ : SentRow)) =
          Prod.fst from rfl]
      rw [List.enum_map_fst, List.length_map, List.enum_length]
    · intro r hr
      unfold sentBlock at hr
      simp only [List.mem_map] at hr
      obtain ⟨q, _, rfl⟩ := hr
      simp [sentBlock, List.enum_length]

/-- C2 witness: the single (1, 0) window yields three sentence rows with
sentence_index 0, 1, 2 and sentences_count 3 on each row. -/
theorem sentence_index_contract_witness :
    ((split_sentences_keep_schema okSplit (join_texts_by_window sampleWr)).filter
        fun r => decide (sKey r = (1, 0))).map SentRow.sentence_index =
      List.range ((split_sentences_keep_schema okSplit
        (join_texts_by_window sampleWr)).filter
        fun r => decide (sKey r = (1, 0))).length ∧
    ((split_sentences_keep_schema okSplit (join_texts_by_window sampleWr)).filter
        fun r => decide (sKey r = (1, 0))).map SentRow.sentence_index = [0, 1, 2] ∧
    (⟨1, 0, 1, 3, "b!"⟩ : SentRow).sentences_count =
      ((split_sentences_keep_schema okSplit (join_texts_by_window sampleWr)).filter
        fun r => decide (sKey r = (1, 0))).length := by
  obtain ⟨h1, h2⟩ := sentence_index_contract okSplit sampleWr 1 0
  exact ⟨h1, by decide, h2 ⟨1, 0, 1, 3, "b!"⟩ (by decide)⟩

/-- C3 counterexample: cleaning is not idempotent. Removing the inner
noise marker of "(웃(웃음)음)" splices the surrounding characters into a
new "(웃음)" marker, so a first pass yields "(웃음)" and a second pass
yields "", which differs. -/
theorem step2_clean_not_idempotent :
    step2_clean "(웃(웃음)음)" = "(웃음)" ∧
    step2_clean (step2_clean "(웃(웃음)음)") = "" ∧
    step2_clean (step2_clean "(웃(웃음)음)") ≠ step2_clean "(웃(웃음)음)" := by
  have h1 : step2_clean "(웃(웃음)음)" = "(웃음)" := by
    simp [step2_clean, noiseSub, noiseClose, matchKw, laughSub, repeatSub,
      fillerSub, tryFillers, fillers, boundaryAfter, boundaryBefore,
      isWordChar, isHangulSyl, isHangulJamo, isPySpace, collapseWs, pyStrip]
  have h2 : step2_clean "(웃음)" = "" := by
    simp [step2_clean, noiseSub, noiseClose, matchKw, laughSub, repeatSub,
      fillerSub, tryFillers, fillers, boundaryAfter, boundaryBefore,
      isWordChar, isHangulSyl, isHangulJamo, isPySpace, collapseWs, pyStrip]
  refine ⟨h1, by rw [h1, h2], by rw [h1, h2]; decide⟩

/-- C3 amended: cleaning twice equals cleaning once for every input
whose cleaned form is left unchanged by each of the first four regex
passes (noise markers, laughter, repeated characters, fillers); the
final whitespace pass needs no such hypothesis, being idempotent
unconditionally. Unconditional idempotence is false: a removal can
splice a new noise marker that only a second pass removes. -/
theorem step2_clean_amended (x : String)
    (h1 : noiseSub (step2_clean x).data = (step2_clean x).data)
    (h2 : laughSub (step2_clean x).data = (step2_clean x).data)
    (h3 : repeatSub (step2_clean x).data = (step2_clean x).data)
    (h4 : fillerSub none (step2_clean x).data = (step2_clean x).data) :
    step2_clean (step2_clean x) = step2_clean x :=
  calc step2_clean (step2_clean x)
      = ⟨pyStrip (collapseWs (fillerSub none (repeatSub (laughSub
          (noiseSub (step2_clean x).data)))))⟩ := rfl
    _ = ⟨pyStrip (collapseWs ((step2_clean x).data))⟩ := by
        rw [h1, h2, h3, h4]
    _ = step2_clean x :=
        congrArg String.mk (normalize_idem (fillerSub none
          (repeatSub (laughSub (noiseSub x.data)))))

/-- C3 amended witness: "좋아요!! 음 [noise] ㅋㅋㅋ" cleans to
"좋아요!! ㅋㅋ", which every pass fixes, so a second cleaning changes
nothing. -/
theorem step2_clean_amended_witness :
    step2_clean (step2_clean "좋아요!! 음 [noise] ㅋㅋㅋ") =
      step2_clean "좋아요!! 음 [noise] ㅋㅋㅋ" := by
  apply step2_clean_amended
  all_goals
    simp [step2_clean, noiseSub, noiseClose, matchKw, laughSub, repeatSub,
      fillerSub, tryFillers, fillers, boundaryAfter, boundaryBefore,
      isWordChar, isHangulSyl, isHangulJamo, isPySpace, collapseWs, pyStrip,
      Char.toLower, List.takeWhile, List.drop, List.isPrefixOf, List.getLastD]

/-- C10: a window whose segmenter output is the single filler-only
sentence "음 어" yields a pipeline row whose cleaned sentence_text is the
empty string, while that sentence still consumed sentence_index 0 and is
counted (sentences_count = 1) — because cleaning runs after counting and
indexing. -/
theorem preprocess_utterances_empty_cleaned_sentence :
    preprocess_utterances (fun _ => .ok ["음 어"])
      [⟨some 1, some 0, some "음 어", []⟩] =
      [⟨1, 0, 0, 1, ""⟩] ∧
    (⟨1, 0, 0, 1, ""⟩ : SentRow).sentences_count = 1 ∧
    (⟨1, 0, 0, 1, ""⟩ : SentRow).sentence_text = "" := by
  have htab : split_sentences_keep_schema (fun _ => .ok ["음 어"])
      (join_texts_by_window (generate_window_id (remove_missing
        [⟨some 1, some 0, some "음 어", []⟩]))) = [⟨1, 0, 0, 1, "음 어"⟩] := by
    decide
  have hclean : step2_clean "음 어" = "" := by
    simp [step2_clean, noiseSub, noiseClose, matchKw, laughSub, repeatSub,
      fillerSub, tryFillers, fillers, boundaryAfter, boundaryBefore,
      isWordChar, isHangulSyl, isHangulJamo, isPySpace, collapseWs, pyStrip,
      Char.toLower, List.takeWhile, List.drop, List.isPrefixOf, List.getLastD]
  refine ⟨?_, rfl, rfl⟩
  unfold preprocess_utterances
  rw [htab, List.map_cons, List.map_nil, hclean]

/-- C6: when the source metadata columns avoid the derived names, the
merged table's columns are the source columns minus text (original
order), then text, sentiment_pos, sentiment_neg, then the keyword_score
columns sorted lexicographically; and with 1:1 fragments the merged
table has one row per input row, row i combining the i-th metadata row,
i-th sentiment result and the keyword scores of the i-th text. -/
theorem report_assembler_contract (dfCols : List String)
    (hmeta : ∀ c ∈ dfCols, c ≠ "sentiment_pos" ∧ c ≠ "sentiment_neg" ∧
      startsWithKS c = false)
    {α : Type} (metaRows : List α) (texts : List String)
    (outputs : List ClassifierOutput)
    (hlen1 : metaRows.length = texts.length)
    (hlen2 : outputs.length = texts.length) :
    cols_ordered dfCols =
      (dfCols.erase "text") ++ ["text", "sentiment_pos", "sentiment_neg",
        "keyword_score_danger", "keyword_score_negative",
        "keyword_score_positive"] ∧
    (report_rows metaRows texts outputs).length = metaRows.length ∧
    (∀ i (h1 : i < (report_rows metaRows texts outputs).length)
      (h2 : i < metaRows.length) (h3 : i < texts.length)
      (h4 : i < (get_sentiment_scores outputs texts).length),
      (report_rows metaRows texts outputs).get ⟨i, h1⟩ =
        (metaRows.get ⟨i, h2⟩,
         (get_sentiment_scores outputs texts).get ⟨i, h4⟩,
         keyword_count_score (texts.get ⟨i, h3⟩))) := by
  refine ⟨?_, ?_, ?_⟩
  · unfold cols_ordered cols_front concat_columns
    have hA : (dfCols.erase "text").filter (fun c =>
        decide (c ≠ "sentiment_pos") && decide (c ≠ "sentiment_neg") &&
          !(startsWithKS c)) = dfCols.erase "text" := by
      apply List.filter_eq_self.mpr
      intro c hc
      obtain ⟨hp, hn, hk⟩ := hmeta c (List.mem_of_mem_erase hc)
      simp [hp, hn, hk]
    have hAk : (dfCols.erase "text").filter (fun c => startsWithKS c) = [] := by
      apply List.filter_eq_nil_iff.mpr
      intro c hc
      simp [(hmeta c (List.mem_of_mem_erase hc)).2.2]
    simp only [List.filter_append]
    rw [hA, hAk]
    have hB : (["text", "sentiment_pos", "sentiment_neg"].filter fun c =>
        decide (c ≠ "sentiment_pos") && decide (c ≠ "sentiment_neg") &&
          !(startsWithKS c)) = ["text"] := by decide
    have hC : (["keyword_score_positive", "keyword_score_negative",
        "keyword_score_danger"].filter fun c =>
        decide (c ≠ "sentiment_pos") && decide (c ≠ "sentiment_neg") &&
          !(startsWithKS c)) = [] := by decide
    have hBk : (["text", "sentiment_pos", "sentiment_neg"].filter fun c =>
        startsWithKS c) = [] := by decide
    have hCk : (["keyword_score_positive", "keyword_score_negative",
        "keyword_score_danger"].filter fun c => startsWithKS c) =
        ["keyword_score_positive", "keyword_score_negative",
          "keyword_score_danger"] := by decide
    have hsort : List.insertionSort strLe
        ["keyword_score_positive", "keyword_score_negative",
          "keyword_score_danger"] =
        ["keyword_score_danger", "keyword_score_negative",
          "keyword_score_positive"] := by decide
    rw [hB, hC, hBk, hCk]
    simp [hsort]
    decide
  · simp [report_rows, get_sentiment_scores, hlen1, hlen2]
  · intro i h1 h2 h3 h4
    simp [report_rows, List.get_eq_getElem, List.getElem_zip]

/-- C6 witness: a two-row source with columns ["id", "text"]; the merged
columns and row 0 evaluate as the contract states. -/
theorem report_assembler_contract_witness :
    cols_ordered ["id", "text"] =
      ["id", "text", "sentiment_pos", "sentiment_neg",
        "keyword_score_danger", "keyword_score_negative",
        "keyword_score_positive"] ∧
    (report_rows [(10 : ℕ), 20] ["고마워", "b"]
      [⟨"positive", 1/2⟩, ⟨"NEG", 1/4⟩]).length = 2 ∧
    (report_rows [(10 : ℕ), 20] ["고마워", "b"]
      [⟨"positive", 1/2⟩, ⟨"NEG", 1/4⟩]).get ⟨0, by decide⟩ =
      (10, ⟨"고마워", 1/2, 1/2⟩,
        [("keyword_score_positive", (1 : ℚ)),
         ("keyword_score_negative", 0), ("keyword_score_danger", 0)]) := by
  obtain ⟨hcols, hlen, hget⟩ := report_assembler_contract ["id", "text"]
    (by decide) [(10 : ℕ), 20] ["고마워", "b"]
    [⟨"positive", 1/2⟩, ⟨"NEG", 1/4⟩] rfl rfl
  have hk : keyword_count_score "고마워" =
      [("keyword_score_positive", (1 : ℚ)), ("keyword_score_negative", 0),
       ("keyword_score_danger", 0)] := by
    have c1 : countOcc "고마워".data "고마워".data = 1 := by simp [countOcc]
    have c2 : countOcc "좋아".data "고마워".data = 0 := by simp [countOcc]
    have c3 : countOcc "행복".data "고마워".data = 0 := by simp [countOcc]
    have c4 : countOcc "싫어".data "고마워".data = 0 := by simp [countOcc]
    have c5 : countOcc "우울".data "고마워".data = 0 := by simp [countOcc]
    have c6 : countOcc "짜증".data "고마워".data = 0 := by simp [countOcc]
    have c7 : countOcc "죽고 싶".data "고마워".data = 0 := by simp [countOcc]
    have c8 : countOcc "끝내고 싶".data "고마워".data = 0 := by simp [countOcc]
    simp [keyword_count_score, lexicon, c1, c2, c3, c4, c5, c6, c7, c8]
    norm_num
  refine ⟨by rw [hcols]; rfl, hlen, ?_⟩
  rw [hget 0 (by decide) (by decide) (by decide) (by decide)]
  simp only [Prod.mk.injEq]
  refine ⟨by decide, ?_, ?_⟩
  · show (get_sentiment_scores [⟨"positive", 1/2⟩, ⟨"NEG", 1/4⟩]
      ["고마워", "b"]).get ⟨0, by decide⟩ =
      (⟨"고마워", 1/2, 1/2⟩ : SentimentResult)
    simp [get_sentiment_scores, pyLower]
    norm_num
  · show keyword_count_score "고마워" = _
    exact hk

end NlpPipeline
